import Mathlib

/-!
# Verification of the sales-dashboard pipeline (`dashboard.py`)

Shallow embedding of the dashboard's reproducible core: the fuzzy Column
Resolver (`find_best_column`), the delimiter-detecting File Ingestor, the
Data Cleaner (numeric and date coercion), the Filter Engine (category and
date-range filters), the sales-by-month Aggregator and the export stage.

Conventions of the embedding:
* Python exceptions are `Except String` errors; `None` is `Option.none`.
* `rapidfuzz.fuzz.ratio` is the indel similarity `100·2·LCS(a,b)/(|a|+|b|)`,
  represented exactly as a rational instead of a float.
* pandas numbers are decimals `m/10^k` (`Cell.num m k`); `NaT` is
  `Cell.dt none`.
-/

namespace Dashboard

/-- Length of a longest common subsequence, with explicit fuel so that the
recursion is structural (the fuel `|xs|+|ys|` supplied by `lcs` never runs
out before both lists do). -/
def lcsF : Nat → List Char → List Char → Nat
  | 0, _, _ => 0
  | _ + 1, [], _ => 0
  | _ + 1, _ :: _, [] => 0
  | f + 1, a :: as, b :: bs =>
    if a = b then lcsF f as bs + 1
    else max (lcsF f (a :: as) bs) (lcsF f as (b :: bs))

/-- Length of a longest common subsequence of two character lists: the
similarity core of `rapidfuzz`'s indel metric, where
`dist(a,b) = |a|+|b| - 2·lcs(a,b)`. -/
def lcs (xs ys : List Char) : Nat := lcsF (xs.length + ys.length) xs ys

/-- Python's `str.lower` on one character (ASCII range, which covers every
header the dashboard handles). -/
def lowerChar (c : Char) : Char :=
  if 'A' ≤ c ∧ c ≤ 'Z' then Char.ofNat (c.toNat + 32) else c

/-- Python's `str.lower`, as the character list the similarity works on. -/
def lower (s : String) : List Char := s.toList.map lowerChar

/-- `rapidfuzz.fuzz.ratio`: normalized indel similarity in `[0,100]`,
`100·(1 - dist/(|a|+|b|)) = 200·lcs/(|a|+|b|)`, and `100` when both strings
are empty.  Modelled exactly over `ℚ` (the library computes a double). -/
def ratio (a b : List Char) : ℚ :=
  if a.length + b.length = 0 then 100
  else 200 * (lcs a b : ℚ) / ((a.length : ℚ) + (b.length : ℚ))

/-- `max([fuzz.ratio(col.lower(), key.lower()) for key in possible_names])`
(dashboard.py line 14); the `[]` case is unreachable behind the
empty-candidates guard of `find_best_column`. -/
def scoreOf (possible_names : List String) (col : String) : ℚ :=
  match possible_names with
  | [] => 0
  | k :: ks =>
    ks.foldl (fun acc key => max acc (ratio (lower col) (lower key)))
      (ratio (lower col) (lower k))

/-- `max(matches, key=matches.get)` (line 16): the first element of the
column list attaining the maximal score (Python's `max` over the dict's
keys keeps the first maximal key in insertion order; a later equal score
does not displace the current best). -/
def bestOf (f : String → ℚ) (c : String) (cs : List String) : String :=
  cs.foldl (fun acc x => if f x > f acc then x else acc) c

/-- `find_best_column(possible_names, column_list)` (dashboard.py lines
11-17).  Scores every actual column against the candidate names, takes the
argmax, and binds it only when its score is strictly above the threshold
`60`.  Python's `max` raises `ValueError` on an empty sequence: with an
empty `column_list` the dict `matches` is empty and line 16 raises; with
empty `possible_names` the inner `max` of line 14 raises. -/
def find_best_column (possible_names column_list : List String) :
    Except String (Option String) :=
  match column_list with
  | [] => .error "ValueError: max() arg is an empty sequence"
  | c :: cs =>
    if possible_names.isEmpty then
      .error "ValueError: max() arg is an empty sequence"
    else
      let best := bestOf (scoreOf possible_names) c cs
      .ok (if scoreOf possible_names best > 60 then some best else none)

lemma bestOf_spec (f : String → ℚ) (cs : List String) :
    ∀ c : String, bestOf f c cs ∈ c :: cs ∧ ∀ x ∈ c :: cs, f x ≤ f (bestOf f c cs) := by
  induction cs with
  | nil =>
    intro c
    refine ⟨List.mem_cons_self c [], ?_⟩
    intro x hx
    rcases List.mem_cons.1 hx with h | h
    · exact le_of_eq (congrArg f h)
    · exact absurd h (List.not_mem_nil x)
  | cons y ys ih =>
    intro c
    have hstep : bestOf f c (y :: ys) = bestOf f (if f y > f c then y else c) ys := by
      simp [bestOf]
    obtain ⟨hmem, hle⟩ := ih (if f y > f c then y else c)
    have hc : f c ≤ f (bestOf f (if f y > f c then y else c) ys) := by
      refine le_trans ?_ (hle _ (List.mem_cons_self _ ys))
      by_cases h : f y > f c
      · simp only [if_pos h]; exact le_of_lt h
      · simp only [if_neg h]; exact le_refl _
    have hy : f y ≤ f (bestOf f (if f y > f c then y else c) ys) := by
      refine le_trans ?_ (hle _ (List.mem_cons_self _ ys))
      by_cases h : f y > f c
      · simp only [if_pos h]; exact le_refl _
      · simp only [if_neg h]; exact le_of_not_lt h
    constructor
    · rw [hstep]
      rcases List.mem_cons.1 hmem with h | h
      · by_cases hif : f y > f c
        · exact (List.mem_cons).2 (Or.inr ((List.mem_cons).2 (Or.inl (by
            simpa [hif] using h))))
        · exact (List.mem_cons).2 (Or.inl (by simpa [hif] using h))
      · exact (List.mem_cons).2 (Or.inr ((List.mem_cons).2 (Or.inr h)))
    · intro x hx
      rw [hstep]
      rcases List.mem_cons.1 hx with h | h
      · exact le_of_eq (congrArg f h) |>.trans hc
      · rcases List.mem_cons.1 h with h' | h'
        · exact le_of_eq (congrArg f h') |>.trans hy
        · exact hle x ((List.mem_cons).2 (Or.inr h'))

/-- C1 (counterexample): the claim "if the table's header list is empty, the
Resolver returns no binding for that role rather than failing" is false at
the concrete input `possible_names = ["Region"]`, `column_list = []`:
`find_best_column` does not return "no binding" (`Except.ok none`) there. -/
theorem find_best_column_empty_headers_not_unbound :
    find_best_column ["Region"] [] ≠ Except.ok none := by
  simp [find_best_column]

/-- C1 (amended): with an empty header list, `matches` is the empty dict and
`max(matches, key=matches.get)` on line 16 raises `ValueError`: for every
candidate list the Resolver fails instead of reporting the role unbound. -/
theorem find_best_column_empty_headers_raises (possible_names : List String) :
    find_best_column possible_names [] =
      Except.error "ValueError: max() arg is an empty sequence" := rfl

/-- C2: for non-empty header and candidate lists, the Resolver picks a header
`b` whose score dominates every header's score, and binds it exactly when
that overall maximum score is strictly greater than `60`; in particular the
header `"Widget"` against candidates `["Region"]` (every similarity ≤ 60)
yields no binding. -/
theorem find_best_column_binds_max_iff_over_threshold
    (possible_names column_list : List String)
    (hn : possible_names ≠ []) (hc : column_list ≠ []) :
    (∃ b ∈ column_list,
        (∀ x ∈ column_list, scoreOf possible_names x ≤ scoreOf possible_names b) ∧
          find_best_column possible_names column_list =
            Except.ok (if scoreOf possible_names b > 60 then some b else none)) ∧
      find_best_column ["Region"] ["Widget"] = Except.ok none := by
  constructor
  · cases column_list with
    | nil => exact absurd rfl hc
    | cons c cs =>
      obtain ⟨hmem, hle⟩ := bestOf_spec (scoreOf possible_names) cs c
      refine ⟨bestOf (scoreOf possible_names) c cs, hmem, hle, ?_⟩
      have hne : possible_names.isEmpty = false := by
        cases possible_names with
        | nil => exact absurd rfl hn
        | cons _ _ => rfl
      simp [find_best_column, hne]
  · have key : ¬ (ratio (lower "Widget") (lower "Region") > 60) := by
      have h : lcs (lower "Widget") (lower "Region") = 1 := by decide
      have h6 : (lower "Widget").length = 6 := by decide
      have h6' : (lower "Region").length = 6 := by decide
      rw [ratio, h, h6, h6']
      norm_num
    have hred : find_best_column ["Region"] ["Widget"] =
        Except.ok (if ratio (lower "Widget") (lower "Region") > 60
          then some "Widget" else none) := rfl
    rw [hred, if_neg key]

/-- C2 at a concrete input: header list `["Widget"]`, candidates
`["Region"]`. -/
theorem find_best_column_binds_max_iff_over_threshold_check :
    (∃ b ∈ ["Widget"],
        (∀ x ∈ ["Widget"], scoreOf ["Region"] x ≤ scoreOf ["Region"] b) ∧
          find_best_column ["Region"] ["Widget"] =
            Except.ok (if scoreOf ["Region"] b > 60 then some b else none)) ∧
      find_best_column ["Region"] ["Widget"] = Except.ok none :=
  find_best_column_binds_max_iff_over_threshold ["Region"] ["Widget"]
    (by decide) (by decide)

/-! ## Data model: cells, rows, tables -/

/-- A cell of the table: a raw string, a pandas number held exactly as the
decimal `m / 10^k` (pandas floats print and re-parse through their decimal
rendering), or a datetime that is `none` for `NaT`.  A valid date is encoded
as `y*10000 + m*100 + d`, whose numeric order is chronological order. -/
inductive Cell where
  | str : String → Cell
  | num : Int → Nat → Cell
  | dt : Option Nat → Cell
deriving DecidableEq

/-- The rational value of the decimal cell `Cell.num m k`. -/
def decVal (m : Int) (k : Nat) : ℚ := (m : ℚ) / 10 ^ k

/-- A row maps a column name to its cell. -/
def Row : Type := String → Cell

/-- A table: the fixed ordered header list and the rows (dashboard data
model: an ordered sequence of rows under a fixed column set). -/
structure Table where
  cols : List String
  rows : List Row

/-! ## Numeric cleaning (dashboard.py lines 72-76)

`df[col].astype(str).str.replace(',', '').str.replace('$', '').str.strip()`
then `pd.to_numeric(..., errors='coerce').fillna(0)`. -/

/-- The decimal digit characters of a natural number, most significant
first; `0` prints as `"0"`. -/
def natChars (n : Nat) : List Char :=
  if n = 0 then ['0'] else (Nat.digits 10 n).reverse.map (fun d => Char.ofNat (48 + d))

/-- Left-pad a digit string with zeros up to width `w`. -/
def padZeros (w : Nat) (l : List Char) : List Char :=
  List.replicate (w - l.length) '0' ++ l

/-- `str()` of the decimal number `m / 10^k`: sign, integer digits and, for
`k > 0`, a point followed by exactly `k` fractional digits — the decimal
rendering a pandas float round-trips through. -/
def numRepr (m : Int) (k : Nat) : List Char :=
  let a := m.natAbs
  let sign : List Char := if m < 0 then ['-'] else []
  if k = 0 then sign ++ natChars a
  else sign ++ natChars (a / 10 ^ k) ++ '.' :: padZeros k (natChars (a % 10 ^ k))

/-- ISO rendering of an encoded date `y*10000 + m*100 + d`. -/
def dateChars (d : Nat) : List Char :=
  padZeros 4 (natChars (d / 10000)) ++ '-' ::
    (padZeros 2 (natChars (d / 100 % 100)) ++ '-' :: padZeros 2 (natChars (d % 100)))

/-- `astype(str)` on one cell. -/
def cellStr : Cell → List Char
  | .str s => s.toList
  | .num m k => numRepr m k
  | .dt none => "NaT".toList
  | .dt (some d) => dateChars d

/-- `.str.replace(',', '').str.replace('$', '')` (line 75): pandas replaces
every occurrence of the literal one-character pattern by the empty string,
i.e. deletes every comma and then every dollar sign. -/
def stripSeparators (l : List Char) : List Char :=
  (l.filter (fun c => c ≠ ',')).filter (fun c => c ≠ '$')

/-- `.str.strip()` (line 75): drop whitespace from both ends. -/
def pyStrip (l : List Char) : List Char :=
  ((l.dropWhile Char.isWhitespace).reverse.dropWhile Char.isWhitespace).reverse

/-- Numeric value of a digit character. -/
def digitVal (c : Char) : Nat := c.toNat - 48

/-- Value of a big-endian digit string. -/
def digitsVal (l : List Char) : Nat :=
  l.foldl (fun a c => 10 * a + digitVal c) 0

/-- Leading-sign handling of the float grammar: one optional `-` or `+`. -/
def parseSign (l : List Char) : ℚ × List Char :=
  match l with
  | c :: r => if c = '-' then (-1, r) else if c = '+' then (1, r) else (1, l)
  | [] => (1, [])

/-- Split at the first `'.'`, keeping what follows it (which may itself
still contain a dot — such a string then fails the digit test). -/
def splitDot : List Char → List Char × Option (List Char)
  | [] => ([], none)
  | c :: rest =>
    if c = '.' then ([], some rest)
    else
      let p := splitDot rest
      (c :: p.1, p.2)

/-- The unsigned part of the float grammar: decimal digits with at most one
point and at least one digit; the value scaled by the sign `sg`. -/
def parseNumCore (sg : ℚ) (l : List Char) : Option ℚ :=
  match splitDot l with
  | (a, none) =>
    if a.all Char.isDigit && !a.isEmpty then some (sg * digitsVal a) else none
  | (a, some b) =>
    if (a ++ b).all Char.isDigit && !(a ++ b).isEmpty then
      some (sg * (((digitsVal a : ℚ) * 10 ^ b.length + digitsVal b) / 10 ^ b.length))
    else none

/-- `pd.to_numeric(s, errors='coerce')` on an already stripped string:
accepts an optional sign, then decimal digits with at most one point and at
least one digit (the grammar of Python floats the cleaned cells use;
exponent forms and the words inf and nan are not modelled), and is `none` —
pandas `NaN` — otherwise. -/
def parseNum (l : List Char) : Option ℚ :=
  let s := parseSign l
  parseNumCore s.1 s.2

/-- Lines 75-76 on one cell: stringify, delete separators, strip, parse,
and `fillna(0)`. -/
def cleanCell (c : Cell) : ℚ :=
  (parseNum (pyStrip (stripSeparators (cellStr c)))).getD 0

/-- Line 73-76 applied to one bound numeric column: every cell becomes a
number, unparseable ones `0`. -/
def cleanColumn (col : List Cell) : List ℚ := col.map cleanCell

/-- Modelled from C4's words (for comparison with `cleanCell`, which is the
code's behavior): strip thousands-separator commas, strip a single LEADING
currency symbol, trim whitespace, parse as a number, unparseable or empty
cells become zero. -/
def cleanCellClaim (c : Cell) : ℚ :=
  let l := (cellStr c).filter (fun ch => ch ≠ ',')
  let l2 := match l with
    | '$' :: r => r
    | _ => l
  (parseNum (pyStrip l2)).getD 0

/-! ## Round-trip of the decimal rendering through the cleaner -/

lemma foldl_digits (L : List Nat) (h : ∀ d ∈ L, d < 10) (acc : Nat) :
    (L.reverse.map (fun d => Char.ofNat (48 + d))).foldl
        (fun a c => 10 * a + digitVal c) acc
      = acc * 10 ^ L.length + Nat.ofDigits 10 L := by
  induction L generalizing acc with
  | nil => simp [Nat.ofDigits]
  | cons d L ih =>
    have hd : d < 10 := h d (List.mem_cons_self d L)
    have hdc : digitVal (Char.ofNat (48 + d)) = d := by
      have hall : ∀ x < 10, digitVal (Char.ofNat (48 + x)) = x := by decide
      exact hall d hd
    have hL : ∀ x ∈ L, x < 10 := fun x hx => h x (List.mem_cons.2 (Or.inr hx))
    rw [List.reverse_cons, List.map_append, List.foldl_append, ih hL acc]
    simp only [List.map_cons, List.map_nil, List.foldl_cons, List.foldl_nil, hdc,
      Nat.ofDigits_cons, List.length_cons]
    ring

lemma digitsVal_natChars (n : Nat) : digitsVal (natChars n) = n := by
  by_cases hn : n = 0
  · subst hn; decide
  · rw [natChars, if_neg hn]
    have := foldl_digits (Nat.digits 10 n)
      (fun d hd => Nat.digits_lt_base (by norm_num) hd) 0
    rw [digitsVal, this, Nat.ofDigits_digits]
    simp

lemma natChars_all_digit (n : Nat) : ∀ c ∈ natChars n, c.isDigit = true := by
  by_cases hn : n = 0
  · subst hn; decide
  · rw [natChars, if_neg hn]
    intro c hc
    rcases List.mem_map.1 hc with ⟨d, hd, rfl⟩
    have hdlt : d < 10 := Nat.digits_lt_base (by norm_num) (List.mem_reverse.1 hd)
    have hall : ∀ x < 10, (Char.ofNat (48 + x)).isDigit = true := by decide
    exact hall d hdlt

lemma natChars_ne_nil (n : Nat) : natChars n ≠ [] := by
  by_cases hn : n = 0
  · subst hn; decide
  · rw [natChars, if_neg hn]
    simp [Nat.digits_ne_nil_iff_ne_zero.2 hn]

lemma natChars_length_le (n k : Nat) (hk : 1 ≤ k) (h : n < 10 ^ k) :
    (natChars n).length ≤ k := by
  by_cases hn : n = 0
  · subst hn; simpa [natChars] using hk
  · rw [natChars, if_neg hn]
    rw [List.length_map, List.length_reverse,
      Nat.digits_len 10 n (by norm_num) hn]
    have := (Nat.lt_pow_iff_log_lt (by norm_num : 1 < 10) hn).1 h
    omega

lemma foldl_digitsVal_zero (j : Nat) :
    (List.replicate j '0').foldl (fun a c => 10 * a + digitVal c) 0 = 0 := by
  induction j with
  | zero => rfl
  | succ j ih => simpa [List.replicate_succ, digitVal] using ih

lemma digitsVal_padZeros (w : Nat) (l : List Char) :
    digitsVal (padZeros w l) = digitsVal l := by
  rw [padZeros, digitsVal, digitsVal, List.foldl_append, foldl_digitsVal_zero]

lemma padZeros_all_digit (w : Nat) (l : List Char)
    (h : ∀ c ∈ l, c.isDigit = true) : ∀ c ∈ padZeros w l, c.isDigit = true := by
  intro c hc
  rcases List.mem_append.1 hc with h1 | h1
  · rcases List.eq_of_mem_replicate h1 with rfl; decide
  · exact h c h1

lemma padZeros_length (w : Nat) (l : List Char) (h : l.length ≤ w) :
    (padZeros w l).length = w := by
  rw [padZeros, List.length_append, List.length_replicate]
  omega

lemma splitDot_no_dot (l : List Char) (h : ∀ c ∈ l, c ≠ '.') :
    splitDot l = (l, none) := by
  induction l with
  | nil => rfl
  | cons c r ih =>
    rw [splitDot, if_neg (h c (List.mem_cons_self c r)),
      ih (fun x hx => h x (List.mem_cons.2 (Or.inr hx)))]

lemma splitDot_append (xs ys : List Char) (h : ∀ c ∈ xs, c ≠ '.') :
    splitDot (xs ++ '.' :: ys) = (xs, some ys) := by
  induction xs with
  | nil => simp [splitDot]
  | cons c r ih =>
    rw [List.cons_append, splitDot, if_neg (h c (List.mem_cons_self c r)),
      ih (fun x hx => h x (List.mem_cons.2 (Or.inr hx)))]

lemma digit_ne (c x : Char) (h : c.isDigit = true) (hx : x.isDigit = false) :
    c ≠ x := by
  intro hc
  rw [hc, hx] at h
  exact Bool.false_ne_true h

lemma digit_not_ws (c : Char) (h : c.isDigit = true) : c.isWhitespace = false := by
  cases hw : c.isWhitespace
  · rfl
  · exfalso
    unfold Char.isWhitespace at hw
    simp only [Bool.or_eq_true, beq_iff_eq, decide_eq_true_eq] at hw
    rcases hw with ((rfl | rfl) | rfl) | rfl <;> exact absurd h (by decide)

lemma natChars_no_dot (n : Nat) : ∀ c ∈ natChars n, c ≠ '.' :=
  fun c hc => digit_ne c '.' (natChars_all_digit n c hc) (by decide)

lemma isEmpty_false_of_ne_nil {α : Type} (l : List α) (h : l ≠ []) :
    l.isEmpty = false := by
  cases l with
  | nil => exact absurd rfl h
  | cons a r => rfl

lemma parseNumCore_natChars (sg : ℚ) (n : Nat) :
    parseNumCore sg (natChars n) = some (sg * n) := by
  rw [parseNumCore, splitDot_no_dot (natChars n) (natChars_no_dot n)]
  show (if (natChars n).all Char.isDigit && !(natChars n).isEmpty
      then some (sg * (digitsVal (natChars n) : ℚ)) else none) = some (sg * n)
  rw [if_pos, digitsVal_natChars]
  rw [List.all_eq_true.2 (natChars_all_digit n),
    isEmpty_false_of_ne_nil _ (natChars_ne_nil n)]
  rfl

lemma parseNumCore_frac (sg : ℚ) (n k : Nat) (hk : 1 ≤ k) :
    parseNumCore sg
        (natChars (n / 10 ^ k) ++ '.' :: padZeros k (natChars (n % 10 ^ k)))
      = some (sg * ((n : ℚ) / 10 ^ k)) := by
  rw [parseNumCore,
    splitDot_append _ _ (natChars_no_dot (n / 10 ^ k))]
  have hlen : (padZeros k (natChars (n % 10 ^ k))).length = k :=
    padZeros_length k _ (natChars_length_le _ k hk
      (Nat.mod_lt n (Nat.pos_pow_of_pos k (by norm_num))))
  show (if (natChars (n / 10 ^ k) ++ padZeros k (natChars (n % 10 ^ k))).all
          Char.isDigit
        && !(natChars (n / 10 ^ k) ++ padZeros k (natChars (n % 10 ^ k))).isEmpty
      then some (sg * (((digitsVal (natChars (n / 10 ^ k)) : ℚ) *
          10 ^ (padZeros k (natChars (n % 10 ^ k))).length +
            (digitsVal (padZeros k (natChars (n % 10 ^ k))) : ℚ)) /
          10 ^ (padZeros k (natChars (n % 10 ^ k))).length))
      else none) = some (sg * ((n : ℚ) / 10 ^ k))
  have hall : (natChars (n / 10 ^ k) ++ padZeros k (natChars (n % 10 ^ k))).all
      Char.isDigit = true := by
    refine List.all_eq_true.2 (fun c hc => ?_)
    rcases List.mem_append.1 hc with h | h
    · exact natChars_all_digit _ c h
    · exact padZeros_all_digit _ _ (natChars_all_digit _) c h
  have hne : (natChars (n / 10 ^ k) ++ padZeros k (natChars (n % 10 ^ k))).isEmpty
      = false :=
    isEmpty_false_of_ne_nil _ (by simp [natChars_ne_nil])
  rw [hall, hne]
  show some _ = _
  rw [digitsVal_natChars, digitsVal_padZeros, digitsVal_natChars, hlen]
  have hdm : ((n / 10 ^ k : ℕ) : ℚ) * 10 ^ k + ((n % 10 ^ k : ℕ) : ℚ) = (n : ℚ) := by
    have h : n / 10 ^ k * 10 ^ k + n % 10 ^ k = n := by
      rw [Nat.mul_comm (n / 10 ^ k) (10 ^ k)]
      exact Nat.div_add_mod n (10 ^ k)
    exact_mod_cast h
  rw [hdm]

lemma parseNum_dash (r : List Char) : parseNum ('-' :: r) = parseNumCore (-1) r := by
  simp [parseNum, parseSign]

lemma parseNum_digit_head (c : Char) (cs : List Char) (hc : c.isDigit = true) :
    parseNum (c :: cs) = parseNumCore 1 (c :: cs) := by
  rw [parseNum]
  show parseNumCore (parseSign (c :: cs)).1 (parseSign (c :: cs)).2 = _
  rw [parseSign, if_neg (digit_ne c '-' hc (by decide)),
    if_neg (digit_ne c '+' hc (by decide))]

/-- The cleaner parses the decimal rendering of `m / 10^k` back to exactly
`m / 10^k`. -/
theorem parseNum_numRepr (m : Int) (k : Nat) :
    parseNum (numRepr m k) = some (decVal m k) := by
  have hcast : (m.natAbs : ℚ) = if m < 0 then -(m : ℚ) else (m : ℚ) := by
    by_cases hm : m < 0
    · rw [if_pos hm]
      rw [Nat.cast_natAbs, abs_of_neg hm]
      push_cast
      ring
    · rw [if_neg hm]
      rw [Nat.cast_natAbs, abs_of_nonneg (le_of_not_lt hm)]
  by_cases hk : k = 0
  · subst hk
    by_cases hm : m < 0
    · have hrepr : numRepr m 0 = '-' :: natChars m.natAbs := by
        simp [numRepr, hm]
      rw [hrepr, parseNum_dash, parseNumCore_natChars, hcast, if_pos hm, decVal]
      norm_num
    · have hrepr : numRepr m 0 = natChars m.natAbs := by
        simp [numRepr, hm]
      obtain ⟨c, cs, hcons⟩ := List.exists_cons_of_ne_nil (natChars_ne_nil m.natAbs)
      have hdig : c.isDigit = true :=
        natChars_all_digit m.natAbs c (hcons ▸ List.mem_cons_self c cs)
      rw [hrepr, hcons, parseNum_digit_head c cs hdig, ← hcons,
        parseNumCore_natChars, hcast, if_neg hm, decVal]
      norm_num
  · have hk1 : 1 ≤ k := Nat.one_le_iff_ne_zero.2 hk
    by_cases hm : m < 0
    · have hrepr : numRepr m k = '-' :: (natChars (m.natAbs / 10 ^ k) ++
          '.' :: padZeros k (natChars (m.natAbs % 10 ^ k))) := by
        simp [numRepr, hm, hk]
      rw [hrepr, parseNum_dash, parseNumCore_frac _ _ _ hk1, hcast, if_pos hm,
        decVal]
      ring_nf
    · have hrepr : numRepr m k = natChars (m.natAbs / 10 ^ k) ++
          '.' :: padZeros k (natChars (m.natAbs % 10 ^ k)) := by
        simp [numRepr, hm, hk]
      obtain ⟨c, cs, hcons⟩ :=
        List.exists_cons_of_ne_nil (natChars_ne_nil (m.natAbs / 10 ^ k))
      have hdig : c.isDigit = true :=
        natChars_all_digit _ c (hcons ▸ List.mem_cons_self c cs)
      have hcons2 : numRepr m k = c :: (cs ++
          '.' :: padZeros k (natChars (m.natAbs % 10 ^ k))) := by
        rw [hrepr, hcons]; rfl
      rw [hcons2, parseNum_digit_head c _ hdig, ← hcons2, hrepr,
        parseNumCore_frac _ _ _ hk1, hcast, if_neg hm, decVal]
      norm_num

lemma numRepr_chars (m : Int) (k : Nat) :
    ∀ c ∈ numRepr m k, c.isDigit = true ∨ c = '-' ∨ c = '.' := by
  intro c hc
  have hsign : ∀ x ∈ (if m < 0 then ['-'] else ([] : List Char)), x = '-' := by
    intro x hx
    by_cases hm : m < 0
    · rw [if_pos hm] at hx
      exact List.mem_singleton.1 hx
    · rw [if_neg hm] at hx
      exact absurd hx (List.not_mem_nil x)
  by_cases hk : k = 0
  · subst hk
    simp only [numRepr, if_pos rfl] at hc
    rcases List.mem_append.1 hc with h | h
    · exact Or.inr (Or.inl (hsign c h))
    · exact Or.inl (natChars_all_digit _ c h)
  · simp only [numRepr, if_neg hk] at hc
    rcases List.mem_append.1 hc with h | h
    · rcases List.mem_append.1 h with h1 | h1
      · exact Or.inr (Or.inl (hsign c h1))
      · exact Or.inl (natChars_all_digit _ c h1)
    · rcases List.mem_cons.1 h with rfl | h1
      · exact Or.inr (Or.inr rfl)
      · exact Or.inl (padZeros_all_digit _ _ (natChars_all_digit _) c h1)

lemma stripSeparators_numRepr (m : Int) (k : Nat) :
    stripSeparators (numRepr m k) = numRepr m k := by
  have h := numRepr_chars m k
  have h1 : (numRepr m k).filter (fun c => c ≠ ',') = numRepr m k := by
    refine List.filter_eq_self.2 (fun c hc => ?_)
    rcases h c hc with hd | rfl | rfl
    · simpa using digit_ne c ',' hd (by decide)
    · decide
    · decide
  rw [stripSeparators, h1]
  refine List.filter_eq_self.2 (fun c hc => ?_)
  rcases h c hc with hd | rfl | rfl
  · simpa using digit_ne c '$' hd (by decide)
  · decide
  · decide

lemma dropWhile_ws_eq_self (l : List Char)
    (h : ∀ c ∈ l, c.isWhitespace = false) :
    l.dropWhile Char.isWhitespace = l := by
  cases l with
  | nil => rfl
  | cons c r =>
    rw [List.dropWhile_cons, if_neg]
    simp [h c (List.mem_cons_self c r)]

lemma pyStrip_eq_self (l : List Char) (h : ∀ c ∈ l, c.isWhitespace = false) :
    pyStrip l = l := by
  rw [pyStrip, dropWhile_ws_eq_self l h,
    dropWhile_ws_eq_self _ (fun c hc => h c (List.mem_reverse.1 hc)),
    List.reverse_reverse]

lemma pyStrip_numRepr (m : Int) (k : Nat) : pyStrip (numRepr m k) = numRepr m k :=
  pyStrip_eq_self _ (fun c hc => by
    rcases numRepr_chars m k c hc with hd | rfl | rfl
    · exact digit_not_ws c hd
    · decide
    · decide)

/-- Re-cleaning a cell that already holds the number `m / 10^k` returns
exactly that number. -/
theorem cleanCell_num (m : Int) (k : Nat) :
    cleanCell (Cell.num m k) = decVal m k := by
  rw [cleanCell, cellStr, stripSeparators_numRepr, pyStrip_numRepr,
    parseNum_numRepr]
  rfl

lemma cleanCell_str_eval (s : String) (l : List Char)
    (h : pyStrip (stripSeparators s.toList) = l) :
    cleanCell (Cell.str s) = (parseNum l).getD 0 := by
  rw [cleanCell, cellStr, h]

lemma cleanCell_dollar_comma : cleanCell (Cell.str "$1,234.50") = 1234.50 := by
  rw [cleanCell_str_eval "$1,234.50" ['1', '2', '3', '4', '.', '5', '0'] (by decide)]
  have hp : parseNum ['1', '2', '3', '4', '.', '5', '0'] =
      some (1 * (((digitsVal ['1', '2', '3', '4'] : ℚ) * 10 ^ 2 +
        (digitsVal ['5', '0'] : ℚ)) / 10 ^ 2)) := rfl
  rw [hp]
  have h1 : digitsVal ['1', '2', '3', '4'] = 1234 := by decide
  have h2 : digitsVal ['5', '0'] = 50 := by decide
  show 1 * (((digitsVal ['1', '2', '3', '4'] : ℚ) * 10 ^ 2 +
    (digitsVal ['5', '0'] : ℚ)) / 10 ^ 2) = 1234.50
  rw [h1, h2]
  norm_num

/-- C4 (amended, also the zero-fill half of the original claim): cleaning
deletes every comma and dollar sign, trims, parses; a cell whose stripped
text fails to parse — the empty string and `"abc"` included — becomes zero,
never null, and `"$1,234.50"` becomes `1234.50`. -/
theorem cleanCell_examples_and_zero_fill :
    cleanCell (Cell.str "$1,234.50") = 1234.50 ∧
      cleanCell (Cell.str "") = 0 ∧
        cleanCell (Cell.str "abc") = 0 ∧
          ∀ c : Cell, parseNum (pyStrip (stripSeparators (cellStr c))) = none →
            cleanCell c = 0 := by
  refine ⟨cleanCell_dollar_comma, rfl, rfl, fun c hc => ?_⟩
  rw [cleanCell, hc]
  rfl

/-- C4 (counterexample): on the cell `"12$34"` the code's cleaner deletes
the interior dollar sign and yields `1234`, while the procedure the claim
describes (strip only a LEADING currency symbol) leaves `12$34` unparseable
and yields `0` — so the claim's description of the mapping is false. -/
theorem cleanCell_interior_dollar_diverges :
    cleanCell (Cell.str "12$34") = 1234 ∧
      cleanCellClaim (Cell.str "12$34") = 0 ∧
        cleanCell (Cell.str "12$34") ≠ cleanCellClaim (Cell.str "12$34") := by
  have h1 : cleanCell (Cell.str "12$34") = 1234 := by
    rw [cleanCell_str_eval "12$34" ['1', '2', '3', '4'] (by decide)]
    have hp : parseNum ['1', '2', '3', '4'] =
        some (1 * (digitsVal ['1', '2', '3', '4'] : ℚ)) := rfl
    rw [hp]
    have hd : digitsVal ['1', '2', '3', '4'] = 1234 := by decide
    show 1 * (digitsVal ['1', '2', '3', '4'] : ℚ) = 1234
    rw [hd]
    norm_num
  have h2 : cleanCellClaim (Cell.str "12$34") = 0 := rfl
  refine ⟨h1, h2, ?_⟩
  rw [h1, h2]
  norm_num

/-- C10: the cleaner deletes every comma and every dollar sign wherever
they occur in the cell (the two pandas replaces are a filter dropping all
`','` and `'$'` characters), so `"1,2"` cleans to `12` and `"12$34"` to
`1234` rather than to zero. -/
theorem cleanCell_deletes_separators_everywhere :
    (∀ l : List Char,
        stripSeparators l = l.filter (fun c => c ≠ ',' ∧ c ≠ '$')) ∧
      cleanCell (Cell.str "1,2") = 12 ∧
        cleanCell (Cell.str "12$34") = 1234 := by
  refine ⟨fun l => ?_, ?_, ?_⟩
  · rw [stripSeparators, List.filter_filter]
    refine List.filter_congr (fun c _ => ?_)
    by_cases h1 : c = ','
    · subst h1; decide
    · by_cases h2 : c = '$'
      · subst h2; decide
      · simp [h1, h2]
  · rw [cleanCell_str_eval "1,2" ['1', '2'] (by decide)]
    have hp : parseNum ['1', '2'] = some (1 * (digitsVal ['1', '2'] : ℚ)) := rfl
    rw [hp]
    have hd : digitsVal ['1', '2'] = 12 := by decide
    show 1 * (digitsVal ['1', '2'] : ℚ) = 12
    rw [hd]
    norm_num
  · rw [cleanCell_str_eval "12$34" ['1', '2', '3', '4'] (by decide)]
    have hp : parseNum ['1', '2', '3', '4'] =
        some (1 * (digitsVal ['1', '2', '3', '4'] : ℚ)) := rfl
    rw [hp]
    have hd : digitsVal ['1', '2', '3', '4'] = 1234 := by decide
    show 1 * (digitsVal ['1', '2', '3', '4'] : ℚ) = 1234
    rw [hd]
    norm_num

/-- The numeric value a cell that is already a number carries. -/
def cellNumVal : Cell → ℚ
  | .num m k => decVal m k
  | _ => 0

/-- C8: cleaning is idempotent on already-typed values: on a column whose
cells are all numbers, the cleaning pass returns exactly the values already
present (stringification, separator removal, strip and re-parsing are
lossless on the decimal rendering of a number). -/
theorem cleaning_idempotent_on_typed (col : List Cell)
    (h : ∀ c ∈ col, ∃ m k, c = Cell.num m k) :
    cleanColumn col = col.map cellNumVal := by
  rw [cleanColumn]
  induction col with
  | nil => rfl
  | cons c r ih =>
    rcases h c (List.mem_cons_self c r) with ⟨m, k, rfl⟩
    rw [List.map_cons, List.map_cons, cleanCell_num,
      ih (fun x hx => h x (List.mem_cons.2 (Or.inr hx)))]
    rfl

/-- C8 at a concrete input: the column `[1234.5, -7]`. -/
theorem cleaning_idempotent_on_typed_check :
    cleanColumn [Cell.num 12345 1, Cell.num (-7) 0] =
      [Cell.num 12345 1, Cell.num (-7) 0].map cellNumVal :=
  cleaning_idempotent_on_typed _ (by
    intro c hc
    rcases List.mem_cons.1 hc with rfl | hc1
    · exact ⟨12345, 1, rfl⟩
    · rcases List.mem_cons.1 hc1 with rfl | hc2
      · exact ⟨-7, 0, rfl⟩
      · exact absurd hc2 (List.not_mem_nil c))

/-! ## Date cleaning (dashboard.py lines 69-70) and the Filter Engine
(lines 96-117) -/

/-- Gregorian leap year. -/
def isLeap (y : Nat) : Bool := y % 4 = 0 && (y % 100 != 0 || y % 400 = 0)

/-- Days in a month. -/
def daysInMonth (y m : Nat) : Nat :=
  if m = 2 then (if isLeap y then 29 else 28)
  else if m = 4 || m = 6 || m = 9 || m = 11 then 30
  else 31

/-- Split a character list at every dash. -/
def splitDash : List Char → List (List Char)
  | [] => [[]]
  | c :: rest =>
    if c = '-' then [] :: splitDash rest
    else
      match splitDash rest with
      | x :: xs => (c :: x) :: xs
      | [] => [[c]]

/-- `pd.to_datetime(s, errors='coerce')` on an ISO `YYYY-MM-DD` cell (the
shape the date columns the dashboard ingests use): digits only, a month in
`1..12` and a day within the month, else `NaT` (`none`).  A valid date is
encoded as `y*10000 + m*100 + d`, an order-preserving key. -/
def parseDate (s : String) : Option Nat :=
  match splitDash s.toList with
  | [ys, ms, ds] =>
    if ys.all Char.isDigit && ms.all Char.isDigit && ds.all Char.isDigit
        && ys.length = 4 && !ms.isEmpty && ms.length ≤ 2
        && !ds.isEmpty && ds.length ≤ 2 then
      let y := digitsVal ys
      let m := digitsVal ms
      let d := digitsVal ds
      if 1 ≤ m && m ≤ 12 && 1 ≤ d && d ≤ daysInMonth y m then
        some (y * 10000 + m * 100 + d)
      else none
    else none
  | _ => none

/-- Line 70, `pd.to_datetime(df[date_col], errors='coerce')` on one raw
cell: a datetime that is `NaT` whenever parsing fails; an already-typed
datetime passes through. -/
def cleanDateCell (c : Cell) : Cell :=
  match c with
  | Cell.str s => Cell.dt (parseDate s)
  | Cell.dt d => Cell.dt d
  | Cell.num _ _ => Cell.dt none

/-- One dimension filter of lines 98-103:
`if sel and col: filtered_df = filtered_df[filtered_df[col].isin(sel)]` —
applied only when the column is bound AND the selection is non-empty. -/
def dimFilter (rows : List Row) (col : Option String) (sel : List Cell) :
    List Row :=
  match col with
  | none => rows
  | some c =>
    if sel.isEmpty then rows
    else rows.filter (fun r => decide (r c ∈ sel))

/-- Lines 96-103: the region, then state, then city filters in order. -/
def filtered_df (rows : List Row) (regionCol stateCol cityCol : Option String)
    (region state city : List Cell) : List Row :=
  dimFilter (dimFilter (dimFilter rows regionCol region) stateCol state)
    cityCol city

/-- What one dimension imposes on a surviving row: nothing unless its
column is bound and its selection non-empty, membership of the cell in the
selection otherwise. -/
def dimOk (col : Option String) (sel : List Cell) (r : Row) : Prop :=
  ∀ c, col = some c → sel ≠ [] → r c ∈ sel

/-- Line 117: `filtered_df[(filtered_df[date_col] >= date1) &
(filtered_df[date_col] <= date2)]`.  In pandas every comparison against
`NaT` is `False`, so a row survives only with an actual date inside the
inclusive range. -/
def dateFilter (rows : List Row) (dateCol : String) (d1 d2 : Nat) : List Row :=
  rows.filter (fun r =>
    match r dateCol with
    | Cell.dt (some d) => decide (d1 ≤ d ∧ d ≤ d2)
    | _ => false)

lemma mem_dimFilter (rows : List Row) (col : Option String) (sel : List Cell)
    (r : Row) : r ∈ dimFilter rows col sel ↔ r ∈ rows ∧ dimOk col sel r := by
  cases col with
  | none =>
    simp only [dimFilter]
    constructor
    · intro h; exact ⟨h, fun c hc => absurd hc (by simp)⟩
    · intro h; exact h.1
  | some c =>
    by_cases hsel : sel = []
    · subst hsel
      simp only [dimFilter, List.isEmpty_nil, if_true]
      constructor
      · intro h
        exact ⟨h, fun c' _ h2 => absurd rfl h2⟩
      · intro h; exact h.1
    · rw [dimFilter, if_neg (by simp [isEmpty_false_of_ne_nil sel hsel])]
      rw [List.mem_filter]
      constructor
      · intro ⟨h1, h2⟩
        refine ⟨h1, fun c' hc' _ => ?_⟩
        cases hc'
        exact of_decide_eq_true h2
      · intro ⟨h1, h2⟩
        exact ⟨h1, decide_eq_true (h2 c rfl hsel)⟩

/-- C3: a row survives the three category filters exactly when it is a row
of the table and, for each of region, state and city, either the dimension
is unbound or its selection is empty or the row's cell for the bound
column belongs to the selection — empty selections and unbound columns
exclude nothing. -/
theorem dim_filter_membership (rows : List Row)
    (regionCol stateCol cityCol : Option String)
    (region state city : List Cell) (r : Row) :
    r ∈ filtered_df rows regionCol stateCol cityCol region state city ↔
      r ∈ rows ∧ dimOk regionCol region r ∧ dimOk stateCol state r ∧
        dimOk cityCol city r := by
  rw [filtered_df, mem_dimFilter, mem_dimFilter, mem_dimFilter]
  tauto

/-- C5: date cleaning turns the invalid `"2023-13-40"` into null rather
than raising, and the date-range filter keeps exactly the rows carrying an
actual date inside the inclusive range — a row whose cleaned date is null
never survives an active date filter. -/
theorem null_dates_excluded_by_date_filter :
    cleanDateCell (Cell.str "2023-13-40") = Cell.dt none ∧
      (∀ (rows : List Row) (c : String) (d1 d2 : Nat) (r : Row),
          r ∈ dateFilter rows c d1 d2 →
            r ∈ rows ∧ ∃ d, r c = Cell.dt (some d) ∧ d1 ≤ d ∧ d ≤ d2) ∧
        ∀ (rows : List Row) (c : String) (d1 d2 : Nat) (r : Row),
          r c = Cell.dt none → r ∉ dateFilter rows c d1 d2 := by
  have hmem : ∀ (rows : List Row) (c : String) (d1 d2 : Nat) (r : Row),
      r ∈ dateFilter rows c d1 d2 →
        r ∈ rows ∧ ∃ d, r c = Cell.dt (some d) ∧ d1 ≤ d ∧ d ≤ d2 := by
    intro rows c d1 d2 r hr
    rw [dateFilter, List.mem_filter] at hr
    refine ⟨hr.1, ?_⟩
    have h2 := hr.2
    cases hcell : r c with
    | str s => rw [hcell] at h2; exact Bool.noConfusion h2
    | num m k => rw [hcell] at h2; exact Bool.noConfusion h2
    | dt d =>
      cases d with
      | none => rw [hcell] at h2; exact Bool.noConfusion h2
      | some v =>
        rw [hcell] at h2
        have := of_decide_eq_true h2
        exact ⟨v, rfl, this.1, this.2⟩
  refine ⟨by decide, hmem, ?_⟩
  intro rows c d1 d2 r hnull hr
  rcases (hmem rows c d1 d2 r hr).2 with ⟨d, hd, _, _⟩
  rw [hnull] at hd
  exact Option.noConfusion (Cell.dt.inj hd)

/-! ## Aggregator: sales over time (dashboard.py lines 141-146)

`filtered_df["Month_Year"] = filtered_df[date_col].dt.to_period("M").astype(str)`
then `time_df = filtered_df.groupby("Month_Year", as_index=False)[sales_col].sum()`.
The `"YYYY-MM"` period string is carried as the key `y*100 + m`: its numeric
order agrees with the lexicographic order pandas sorts the strings by on the
four-digit years a pandas timestamp can hold, and the `"NaT"` string of a
null date sorts after every proper key, which `keyLE` mirrors by putting
`none` last.  `groupby` emits the distinct keys in ascending order with the
sum of the sales column per key. -/

/-- Order of the month keys as pandas sorts the rendered strings: numeric on
proper keys, `none` (the `"NaT"` string) last. -/
def keyLE : Option Nat → Option Nat → Prop
  | some x, some y => x ≤ y
  | some _, none => True
  | none, some _ => False
  | none, none => True

instance : DecidableRel keyLE := fun a b =>
  match a, b with
  | some x, some y => Nat.decLe x y
  | some _, none => isTrue trivial
  | none, some _ => isFalse (fun h => h)
  | none, none => isTrue trivial

instance : IsTotal (Option Nat) keyLE :=
  ⟨fun a b =>
    match a, b with
    | some x, some y => Nat.le_total x y
    | some _, none => Or.inl trivial
    | none, some _ => Or.inr trivial
    | none, none => Or.inl trivial⟩

instance : IsTrans (Option Nat) keyLE :=
  ⟨fun a b c hab hbc => by
    cases a with
    | none =>
      cases b with
      | none =>
        cases c with
        | none => trivial
        | some z => exact hbc.elim
      | some y => exact hab.elim
    | some x =>
      cases b with
      | none =>
        cases c with
        | none => trivial
        | some z => exact hbc.elim
      | some y =>
        cases c with
        | none => trivial
        | some z => exact Nat.le_trans hab hbc⟩

/-- The sales value a row contributes: after cleaning, the sales cell is a
number (the other branches do not occur in a cleaned column). -/
def salesVal (r : Row) (salesCol : String) : ℚ :=
  match r salesCol with
  | Cell.num m k => decVal m k
  | _ => 0

/-- `dt.to_period("M")` of the row's date cell: the month key `y*100 + m`,
`none` for `NaT`. -/
def rowMonthKey (r : Row) (dateCol : String) : Option Nat :=
  match r dateCol with
  | Cell.dt (some d) => some (d / 100)
  | _ => none

/-- Lines 143-144: group the rows by month key and sum the sales per key,
keys in the ascending order `groupby` emits. -/
def timeDf (rows : List Row) (dateCol salesCol : String) :
    List (Option Nat × ℚ) :=
  (List.insertionSort keyLE ((rows.map (fun r => rowMonthKey r dateCol)).dedup)).map
    (fun k => (k,
      ((rows.filter (fun r => decide (rowMonthKey r dateCol = k))).map
        (fun r => salesVal r salesCol)).sum))

lemma mem_dateFilter (rows : List Row) (c : String) (d1 d2 : Nat) (r : Row) :
    r ∈ dateFilter rows c d1 d2 ↔
      r ∈ rows ∧ ∃ d, r c = Cell.dt (some d) ∧ d1 ≤ d ∧ d ≤ d2 := by
  rw [dateFilter, List.mem_filter]
  constructor
  · intro ⟨h1, h2⟩
    refine ⟨h1, ?_⟩
    cases hcell : r c with
    | str s => rw [hcell] at h2; exact Bool.noConfusion h2
    | num m k => rw [hcell] at h2; exact Bool.noConfusion h2
    | dt d =>
      cases d with
      | none => rw [hcell] at h2; exact Bool.noConfusion h2
      | some v =>
        rw [hcell] at h2
        have := of_decide_eq_true h2
        exact ⟨v, rfl, this.1, this.2⟩
  · intro ⟨h1, d, hd, hle1, hle2⟩
    refine ⟨h1, ?_⟩
    rw [hd]
    exact decide_eq_true ⟨hle1, hle2⟩

lemma sorted_filterMap_of_keyLE (l : List (Option Nat))
    (h : List.Pairwise keyLE l) :
    List.Pairwise (fun a b : Nat => a ≤ b) (l.filterMap id) := by
  induction l with
  | nil => exact List.Pairwise.nil
  | cons a l ih =>
    rcases List.pairwise_cons.1 h with ⟨ha, hl⟩
    cases a with
    | none => simpa [List.filterMap_cons] using ih hl
    | some x =>
      rw [List.filterMap_cons]
      refine List.pairwise_cons.2 ⟨?_, ih hl⟩
      intro y hy
      rcases List.mem_filterMap.1 hy with ⟨b, hb, hby⟩
      have := ha b hb
      cases b with
      | none => exact Option.noConfusion hby
      | some z =>
        cases Option.some.inj hby
        exact this

/-- C9: on the date-filtered table (dates bound, so every surviving row has
an actual date), the sales-over-time aggregate has one entry per distinct
month-year key of the table, each entry summing the sales of the rows of
that month, and the key sequence is chronologically ascending (no null key
is present). -/
theorem sales_by_month_grouped_and_chronological
    (rows : List Row) (dateCol salesCol : String) (d1 d2 : Nat) :
    (∀ p ∈ timeDf (dateFilter rows dateCol d1 d2) dateCol salesCol,
        p.1.isSome = true) ∧
      List.Sorted keyLE
        ((timeDf (dateFilter rows dateCol d1 d2) dateCol salesCol).map
          Prod.fst) ∧
      List.Sorted (fun a b : Nat => a ≤ b)
        (((timeDf (dateFilter rows dateCol d1 d2) dateCol salesCol).map
          Prod.fst).filterMap id) ∧
      (∀ k : Option Nat,
        (k ∈ (timeDf (dateFilter rows dateCol d1 d2) dateCol salesCol).map
            Prod.fst ↔
          k ∈ (dateFilter rows dateCol d1 d2).map
            (fun r => rowMonthKey r dateCol))) ∧
      ∀ p ∈ timeDf (dateFilter rows dateCol d1 d2) dateCol salesCol,
        p.2 = (((dateFilter rows dateCol d1 d2).filter
            (fun r => decide (rowMonthKey r dateCol = p.1))).map
          (fun r => salesVal r salesCol)).sum := by
  have hkeys : (timeDf (dateFilter rows dateCol d1 d2) dateCol salesCol).map
      Prod.fst = List.insertionSort keyLE
        (((dateFilter rows dateCol d1 d2).map
          (fun r => rowMonthKey r dateCol)).dedup) := by
    rw [timeDf, List.map_map]
    exact List.map_id _
  have hsorted : List.Sorted keyLE
      ((timeDf (dateFilter rows dateCol d1 d2) dateCol salesCol).map
        Prod.fst) := by
    rw [hkeys]
    exact List.sorted_insertionSort keyLE _
  have hmemkeys : ∀ k : Option Nat,
      (k ∈ (timeDf (dateFilter rows dateCol d1 d2) dateCol salesCol).map
          Prod.fst ↔
        k ∈ (dateFilter rows dateCol d1 d2).map
          (fun r => rowMonthKey r dateCol)) := by
    intro k
    rw [hkeys, List.mem_insertionSort, List.mem_dedup]
  have hsome : ∀ p ∈ timeDf (dateFilter rows dateCol d1 d2) dateCol salesCol,
      p.1.isSome = true := by
    intro p hp
    have hk : p.1 ∈ (timeDf (dateFilter rows dateCol d1 d2) dateCol
        salesCol).map Prod.fst := List.mem_map_of_mem Prod.fst hp
    rcases List.mem_map.1 ((hmemkeys p.1).1 hk) with ⟨r, hr, hkey⟩
    rcases ((mem_dateFilter rows dateCol d1 d2 r).1 hr).2 with ⟨d, hd, _, _⟩
    rw [← hkey, rowMonthKey, hd]
    rfl
  refine ⟨hsome, hsorted, ?_, hmemkeys, ?_⟩
  · exact sorted_filterMap_of_keyLE _ hsorted
  · intro p hp
    rw [timeDf] at hp
    rcases List.mem_map.1 hp with ⟨k, _, rfl⟩
    rfl

/-! ## File Ingestor: delimiter detection (dashboard.py lines 32-51) -/

/-- The ordered candidate delimiters of line 35. -/
def delimiters : List Char := [',', ';', '\t']

/-- One `pd.read_csv` attempt per delimiter, abstracted as an oracle:
`none` when the read raises (caught by the bare `except: continue`),
`some t` when it returns the table `t`. -/
def detectLoop (attempt : Char → Option Table) : List Char → Option Table
  | [] => none
  | d :: ds =>
    match attempt d with
    | some t => if t.cols.length > 1 then some t else detectLoop attempt ds
    | none => detectLoop attempt ds

/-- Lines 32-46: try the delimiters in order, accept the first attempt that
does not raise and yields strictly more than one column; with no acceptable
delimiter, `st.error(...)` plus `st.stop()` ends the run with no table. -/
def read_delimited (attempt : Char → Option Table) : Except String Table :=
  match detectLoop attempt delimiters with
  | some t => .ok t
  | none => .error "Could not read CSV file. Please check delimiter or file structure."

/-- An attempt at delimiter `d` is acceptable when it raises nothing and
yields a multi-column table. -/
def accepts (attempt : Char → Option Table) (d : Char) : Prop :=
  ∃ t, attempt d = some t ∧ t.cols.length > 1

lemma detectLoop_spec (attempt : Char → Option Table) :
    ∀ ds : List Char,
      (∀ t, detectLoop attempt ds = some t →
        ∃ pre d post, ds = pre ++ d :: post ∧ attempt d = some t ∧
          t.cols.length > 1 ∧ ∀ e ∈ pre, ¬ accepts attempt e) ∧
      (detectLoop attempt ds = none ↔ ∀ d ∈ ds, ¬ accepts attempt d) := by
  intro ds
  induction ds with
  | nil =>
    refine ⟨fun t ht => Option.noConfusion ht, ?_⟩
    simp [detectLoop]
  | cons d ds ih =>
    constructor
    · intro t ht
      rw [detectLoop] at ht
      rcases hat : attempt d with _ | u
      · rw [hat] at ht
        have ht2 : detectLoop attempt ds = some t := ht
        rcases ih.1 t ht2 with ⟨pre, d0, post, hsplit, h1, h2, h3⟩
        refine ⟨d :: pre, d0, post, by rw [hsplit]; rfl, h1, h2, ?_⟩
        intro e he
        rcases List.mem_cons.1 he with rfl | he'
        · intro ⟨v, hv, _⟩
          rw [hat] at hv
          exact Option.noConfusion hv
        · exact h3 e he'
      · rw [hat] at ht
        have ht2 : (if u.cols.length > 1 then some u
            else detectLoop attempt ds) = some t := ht
        by_cases hcols : u.cols.length > 1
        · rw [if_pos hcols] at ht2
          cases Option.some.inj ht2
          exact ⟨[], d, ds, rfl, hat, hcols, fun e he => absurd he (List.not_mem_nil e)⟩
        · rw [if_neg hcols] at ht2
          rcases ih.1 t ht2 with ⟨pre, d0, post, hsplit, h1, h2, h3⟩
          refine ⟨d :: pre, d0, post, by rw [hsplit]; rfl, h1, h2, ?_⟩
          intro e he
          rcases List.mem_cons.1 he with rfl | he'
          · intro ⟨v, hv, hvc⟩
            rw [hat] at hv
            cases Option.some.inj hv
            exact hcols hvc
          · exact h3 e he'
    · rw [detectLoop]
      rcases hat : attempt d with _ | u
      · show detectLoop attempt ds = none ↔ ∀ x ∈ d :: ds, ¬ accepts attempt x
        constructor
        · intro h x hx
          rcases List.mem_cons.1 hx with rfl | hx'
          · intro ⟨v, hv, _⟩
            rw [hat] at hv
            exact Option.noConfusion hv
          · exact (ih.2.1 h) x hx'
        · intro h
          exact ih.2.2 (fun x hx => h x (List.mem_cons.2 (Or.inr hx)))
      · show (if u.cols.length > 1 then some u else detectLoop attempt ds) = none ↔
            ∀ x ∈ d :: ds, ¬ accepts attempt x
        by_cases hcols : u.cols.length > 1
        · rw [if_pos hcols]
          constructor
          · intro h; exact Option.noConfusion h
          · intro h
            exact absurd ⟨u, hat, hcols⟩ (h d (List.mem_cons_self d ds))
        · rw [if_neg hcols]
          constructor
          · intro h x hx
            rcases List.mem_cons.1 hx with rfl | hx'
            · intro ⟨v, hv, hvc⟩
              rw [hat] at hv
              cases Option.some.inj hv
              exact hcols hvc
            · exact (ih.2.1 h) x hx'
          · intro h
            exact ih.2.2 (fun x hx => h x (List.mem_cons.2 (Or.inr hx)))

/-- C6: over the ordered delimiter list comma, semicolon, tab, the Ingestor
returns the table of the first attempt that neither raises nor yields a
one-column table, every delimiter before the accepted one being
unacceptable; when no delimiter is acceptable it ends the run with the
blocking decode error and produces no table. -/
theorem delimiter_detection_first_acceptable (attempt : Char → Option Table) :
    (∀ t, read_delimited attempt = Except.ok t →
      ∃ pre d post, delimiters = pre ++ d :: post ∧ attempt d = some t ∧
        t.cols.length > 1 ∧ ∀ e ∈ pre, ¬ accepts attempt e) ∧
      ((∀ d ∈ delimiters, ¬ accepts attempt d) ↔
        read_delimited attempt =
          Except.error
            "Could not read CSV file. Please check delimiter or file structure.") := by
  obtain ⟨h1, h2⟩ := detectLoop_spec attempt delimiters
  constructor
  · intro t ht
    rw [read_delimited] at ht
    rcases hd : detectLoop attempt delimiters with _ | u
    · rw [hd] at ht; exact Except.noConfusion ht
    · rw [hd] at ht
      cases Except.ok.inj ht
      exact h1 t hd
  · constructor
    · intro h
      rw [read_delimited, h2.2 h]
    · intro h
      refine h2.1 ?_
      rcases hd : detectLoop attempt delimiters with _ | u
      · rfl
      · rw [read_delimited, hd] at h
        exact Except.noConfusion h

/-! ## Export (dashboard.py lines 141-143 and 180-182) -/

/-- The `"YYYY-MM"` month-year string of a date cell
(`dt.to_period("M").astype(str)`, line 143); `"NaT"` for a null date. -/
def monthYearStr (c : Cell) : String :=
  match c with
  | Cell.dt (some d) =>
    ⟨padZeros 4 (natChars (d / 10000)) ++ '-' :: padZeros 2 (natChars (d / 100 % 100))⟩
  | _ => "NaT"

/-- Lines 141-143: when both the date and the sales role are bound, the
assignment `filtered_df["Month_Year"] = ...` upserts a `Month_Year` column
derived from the date column: pandas overwrites the values of an existing
`Month_Year` column in place (the header list unchanged) and appends the
column at the end otherwise; with either role unbound the table is left
alone. -/
def addMonthYear (t : Table) (dateCol salesCol : Option String) : Table :=
  match dateCol, salesCol with
  | some dc, some _ =>
    { cols := if "Month_Year" ∈ t.cols then t.cols else t.cols ++ ["Month_Year"],
      rows := t.rows.map (fun r => fun c =>
        if c = "Month_Year" then Cell.str (monthYearStr (r dc)) else r c) }
  | _, _ => t

/-- Lines 180-182: the download serializes `filtered_df` as it stands at
that point — after the possible `Month_Year` upsert — as CSV under the
fixed name. -/
def exportArtifact (t : Table) (dateCol salesCol : Option String) :
    Table × String :=
  (addMonthYear t dateCol salesCol, "Filtered_Data.csv")

/-- A concrete two-column filtered table. -/
def sampleTable : Table := { cols := ["Order Date", "Sales"], rows := [] }

/-- C7 (counterexample): with the date and sales roles bound — the very
case in which the time chart exists — and no `Month_Year` header already
present, the exported table's header list gains a `Month_Year` column and
so differs from the filtered table's: the export is NOT exactly the
filtered table. -/
theorem export_not_exactly_filtered_table :
    (exportArtifact sampleTable (some "Order Date") (some "Sales")).1.cols ≠
      sampleTable.cols := by
  intro h
  have h2 : (["Order Date", "Sales", "Month_Year"] : List String) =
      ["Order Date", "Sales"] := by
    have h3 : (if ("Month_Year" : String) ∈ ["Order Date", "Sales"]
        then (["Order Date", "Sales"] : List String)
        else ["Order Date", "Sales"] ++ ["Month_Year"]) =
        ["Order Date", "Sales", "Month_Year"] := by decide
    rw [← h3]
    exact h
  exact List.noConfusion (List.cons.inj (List.cons.inj h2).2).2

/-- C7 (amended): the artifact is offered under the name
`Filtered_Data.csv`; when the date or the sales role is unbound it is
exactly the filtered table, and when both are bound the derived
`Month_Year` column is upserted first: a table already carrying that
header keeps its column list (the column's values are overwritten), any
other gains exactly that one appended column; the row count never
changes. -/
theorem export_is_filtered_table_with_month_year (t : Table)
    (dateCol salesCol : Option String) :
    (exportArtifact t dateCol salesCol).2 = "Filtered_Data.csv" ∧
      ((dateCol = none ∨ salesCol = none) →
        (exportArtifact t dateCol salesCol).1 = t) ∧
      ∀ dc sc, dateCol = some dc → salesCol = some sc →
        ("Month_Year" ∈ t.cols →
            (exportArtifact t dateCol salesCol).1.cols = t.cols) ∧
          ("Month_Year" ∉ t.cols →
            (exportArtifact t dateCol salesCol).1.cols =
              t.cols ++ ["Month_Year"]) ∧
          (exportArtifact t dateCol salesCol).1.rows.length = t.rows.length := by
  refine ⟨rfl, ?_, ?_⟩
  · intro h
    rcases h with rfl | rfl
    · rfl
    · cases dateCol <;> rfl
  · intro dc sc hdc hsc
    subst hdc
    subst hsc
    refine ⟨?_, ?_, List.length_map _ _⟩
    · intro hmem
      show (if "Month_Year" ∈ t.cols then t.cols else t.cols ++ ["Month_Year"])
        = t.cols
      rw [if_pos hmem]
    · intro hmem
      show (if "Month_Year" ∈ t.cols then t.cols else t.cols ++ ["Month_Year"])
        = t.cols ++ ["Month_Year"]
      rw [if_neg hmem]

/-- C7 at a concrete input: the sample table with both roles bound and with
the sales role unbound. -/
theorem export_is_filtered_table_with_month_year_check :
    (exportArtifact sampleTable (some "Order Date") none).2 =
        "Filtered_Data.csv" ∧
      (((some "Order Date" : Option String) = none ∨ (none : Option String) = none) →
        (exportArtifact sampleTable (some "Order Date") none).1 = sampleTable) ∧
      ∀ dc sc, (some "Order Date" : Option String) = some dc →
        (none : Option String) = some sc →
          ("Month_Year" ∈ sampleTable.cols →
              (exportArtifact sampleTable (some "Order Date") none).1.cols =
                sampleTable.cols) ∧
            ("Month_Year" ∉ sampleTable.cols →
              (exportArtifact sampleTable (some "Order Date") none).1.cols =
                sampleTable.cols ++ ["Month_Year"]) ∧
            (exportArtifact sampleTable (some "Order Date") none).1.rows.length =
              sampleTable.rows.length :=
  export_is_filtered_table_with_month_year sampleTable (some "Order Date") none

end Dashboard
